import Mathlib

/-!
Shallow embedding of the view-transform and window-lifecycle state machine of
`veh` (src/main.rs), a minimal image viewer built on winit/vello.

Floating-point (`f64`) scalars are modelled as rationals (`ℚ`): every
arithmetic operation the interaction logic performs (addition, subtraction,
multiplication, division by the constants 2 and 20, `f64::min`) is exact on the
inputs the claims quantify over, except `f64::powf`, which is transcendental
and is therefore modelled as an explicit function parameter `powf` threaded
through the event handler (the code only ever calls it as `BASE.powf(exponent)`
with `BASE = 1.05`).

The kurbo `Affine` type is an array of six `f64` coefficients
`[a0, a1, a2, a3, a4, a5]`, applied to a point `(x, y)` as
`(a0*x + a2*y + a4, a1*x + a3*y + a5)`; multiplication `self * other`
composes with `other` applied first, exactly as in kurbo's `Mul` impl.
-/

namespace Veh

/-- kurbo `Vec2`: a 2D vector with `f64` coordinates, modelled over `ℚ`. -/
structure Vec2 where
  x : ℚ
  y : ℚ
deriving DecidableEq, Repr

instance : Neg Vec2 := ⟨fun v => ⟨-v.x, -v.y⟩⟩

instance : Sub Vec2 := ⟨fun u v => ⟨u.x - v.x, u.y - v.y⟩⟩

/-- kurbo `Affine`: coefficients `[a0, a1, a2, a3, a4, a5]` of a 2D affine
map `(x, y) ↦ (a0*x + a2*y + a4, a1*x + a3*y + a5)`. -/
@[ext]
structure Affine where
  a0 : ℚ
  a1 : ℚ
  a2 : ℚ
  a3 : ℚ
  a4 : ℚ
  a5 : ℚ
deriving DecidableEq, Repr

namespace Affine

/-- kurbo `Affine::IDENTITY`. -/
def IDENTITY : Affine := ⟨1, 0, 0, 1, 0, 0⟩

/-- kurbo `Affine::translate(v)`. -/
def translate (v : Vec2) : Affine := ⟨1, 0, 0, 1, v.x, v.y⟩

/-- kurbo `Affine::scale(s)`: uniform scale. -/
def scale (s : ℚ) : Affine := ⟨s, 0, 0, s, 0, 0⟩

/-- kurbo `impl Mul for Affine`: `self * other` applies `other` first. -/
def mul (s o : Affine) : Affine :=
  ⟨s.a0 * o.a0 + s.a2 * o.a1,
   s.a1 * o.a0 + s.a3 * o.a1,
   s.a0 * o.a2 + s.a2 * o.a3,
   s.a1 * o.a2 + s.a3 * o.a3,
   s.a0 * o.a4 + s.a2 * o.a5 + s.a4,
   s.a1 * o.a4 + s.a3 * o.a5 + s.a5⟩

instance : Mul Affine := ⟨Affine.mul⟩

/-- Application of the affine map to a point, kurbo `Affine * Point`. -/
def apply (t : Affine) (p : Vec2) : Vec2 :=
  ⟨t.a0 * p.x + t.a2 * p.y + t.a4, t.a1 * p.x + t.a3 * p.y + t.a5⟩

/-- kurbo `Affine::determinant`. -/
def det (t : Affine) : ℚ := t.a0 * t.a3 - t.a1 * t.a2

/-- An affine map is invertible iff its determinant is nonzero. -/
def invertible (t : Affine) : Prop := t.det ≠ 0

instance (t : Affine) : Decidable t.invertible := by
  unfold invertible; infer_instance

end Affine

/-- winit `ElementState`. -/
inductive ElementState
  | Pressed
  | Released
deriving DecidableEq, Repr

/-- winit `MouseButton` (only `Left` matters to the handler). -/
inductive MouseButton
  | Left
  | Right
  | Middle
  | OtherButton
deriving DecidableEq, Repr

/-- winit `MouseScrollDelta`: line deltas carry `f32` line counts, pixel
deltas carry an `f64` physical position. -/
inductive MouseScrollDelta
  | LineDelta (x y : ℚ)
  | PixelDelta (x y : ℚ)
deriving DecidableEq, Repr

/-- winit `KeyCode`, restricted to the codes the handler inspects plus a
catch-all for every other physical key. -/
inductive KeyCode
  | Escape
  | ArrowUp
  | ArrowDown
  | ArrowLeft
  | ArrowRight
  | KeyH
  | KeyJ
  | KeyK
  | KeyL
  | OtherKey
deriving DecidableEq, Repr

/-- The window events the `match event` in `main` distinguishes. -/
inductive WindowEvent
  | MouseInput (state : ElementState) (button : MouseButton)
  | MouseWheel (delta : MouseScrollDelta)
  | CursorLeft
  | CursorMoved (position : Vec2)
  | KeyboardInput (state : ElementState) (keycode : KeyCode)
  | CloseRequested
  | Resized
  | RedrawRequested
deriving DecidableEq, Repr

/-- A winit window handle: identity plus its current inner size
(`create_winit_window` uses `LogicalSize::new(1044, 800)`). -/
structure WindowHandle where
  id : ℕ
  width : ℚ
  height : ℚ
deriving DecidableEq, Repr

/-- `create_winit_window`: a fresh window with inner size 1044×800. -/
def create_winit_window (fresh_id : ℕ) : WindowHandle := ⟨fresh_id, 1044, 800⟩

/-- `ActiveRenderState` (the GPU surface is omitted: no interaction logic
reads it). -/
structure ActiveRenderState where
  window : WindowHandle
  transform : Affine
  prior_position : Option Vec2
  mouse_down : Bool
deriving DecidableEq, Repr

/-- `const BASE: f64 = 1.05`. -/
def BASE : ℚ := 1.05

/-- `const PIXELS_PER_LINE: f64 = 20.0`. -/
def PIXELS_PER_LINE : ℚ := 20.0

/-- The `let exponent = ...` chain of the `MouseWheel` arm: pixel deltas give
`delta.y / PIXELS_PER_LINE`, line deltas give `y as f64`. -/
def scrollExponent : MouseScrollDelta → ℚ
  | .PixelDelta _ y => y / PIXELS_PER_LINE
  | .LineDelta _ y => y

/-- Outcome of one `WindowEvent` dispatch: the updated active state, whether
`window.request_redraw()` was called, and whether `event_loop.exit()` was
called. -/
structure StepResult where
  state : ActiveRenderState
  redraw : Bool
  exit : Bool
deriving DecidableEq, Repr

/-- The `match event { ... }` body of `main`'s `Event::WindowEvent` arm,
translated arm by arm. `powf` stands for `f64::powf` (the code calls it only
as `BASE.powf(exponent)`). -/
def handleWindowEvent (powf : ℚ → ℚ → ℚ) (st : ActiveRenderState) :
    WindowEvent → StepResult
  | .MouseInput state button =>
      match button with
      | .Left => ⟨{ st with mouse_down := state = .Pressed }, false, false⟩
      | _ => ⟨st, false, false⟩
  | .MouseWheel delta =>
      match st.prior_position with
      | some prior_position =>
          ⟨{ st with transform :=
                Affine.translate prior_position
                  * Affine.scale (powf BASE (scrollExponent delta))
                  * Affine.translate (-prior_position)
                  * st.transform },
            true, false⟩
      | none => ⟨st, false, false⟩
  | .CursorLeft => ⟨{ st with prior_position := none }, false, false⟩
  | .CursorMoved position =>
      let st1 :=
        match st.mouse_down, st.prior_position with
        | true, some prior =>
            { st with transform :=
                Affine.translate (position - prior) * st.transform }
        | _, _ => st
      ⟨{ st1 with prior_position := some position }, true, false⟩
  | .KeyboardInput state keycode =>
      match state with
      | .Pressed =>
          match keycode with
          | .Escape => ⟨st, false, true⟩
          | .ArrowUp | .KeyK =>
              ⟨{ st with transform :=
                    st.transform * Affine.translate ⟨0, -10⟩ }, true, false⟩
          | .ArrowDown | .KeyJ =>
              ⟨{ st with transform :=
                    st.transform * Affine.translate ⟨0, 10⟩ }, true, false⟩
          | .ArrowLeft | .KeyH =>
              ⟨{ st with transform :=
                    st.transform * Affine.translate ⟨-10, 0⟩ }, true, false⟩
          | .ArrowRight | .KeyL =>
              ⟨{ st with transform :=
                    st.transform * Affine.translate ⟨10, 0⟩ }, true, false⟩
          | .OtherKey => ⟨st, false, false⟩
      | .Released => ⟨st, false, false⟩
  | .CloseRequested => ⟨st, false, true⟩
  | .Resized => ⟨st, true, false⟩
  | .RedrawRequested => ⟨st, false, false⟩

/-- Folding a list of window events through the handler, keeping only the
state (redraw requests merely schedule repaints; they do not feed back). -/
def runActive (powf : ℚ → ℚ → ℚ) (st : ActiveRenderState)
    (evs : List WindowEvent) : ActiveRenderState :=
  evs.foldl (fun s e => (handleWindowEvent powf s e).state) st

/-- The fit-to-window initial transform computed in the `Event::Resumed` arm:
`translate(size/2) * scale(min(w/iw, h/ih)) * translate(-image_size/2) * IDENTITY`. -/
def fitTransform (w h iw ih : ℚ) : Affine :=
  let x_scale := w / iw
  let y_scale := h / ih
  let s := min x_scale y_scale
  Affine.translate ⟨w / 2, h / 2⟩ * Affine.scale s
    * Affine.translate (-(⟨iw / 2, ih / 2⟩ : Vec2)) * Affine.IDENTITY

/-- `RenderState`: `Active` or `Suspended` with an optionally cached window. -/
inductive RenderState
  | Active (s : ActiveRenderState)
  | Suspended (cached : Option WindowHandle)
deriving DecidableEq, Repr

/-- Process-level state: the render state, how many times `open_image` has
decoded the input file, and a supply of fresh window identities. -/
structure AppState where
  render_state : RenderState
  decode_count : ℕ
  next_window_id : ℕ
deriving DecidableEq, Repr

/-- The top-level winit events `main` matches on. -/
inductive Event
  | Resumed
  | Suspended
  | Window (window_id : ℕ) (event : WindowEvent)
deriving DecidableEq, Repr

/-- One turn of the `event_loop.run` closure. `iw, ih` are the intrinsic
size of the decoded image (fixed per process: `open_image` always reads the
same CLI path); each `Event::Resumed` from `Suspended` calls `open_image`
(counted), recomputes the fit transform from the window's current inner size,
and installs a fresh `ActiveRenderState`. Window events are dropped unless
active with a matching window id. -/
def stepApp (powf : ℚ → ℚ → ℚ) (iw ih : ℚ) (st : AppState) : Event → AppState
  | .Resumed =>
      match st.render_state with
      | .Suspended cached =>
          match cached with
          | some window =>
              { render_state := .Active
                  ⟨window, fitTransform window.width window.height iw ih,
                    none, false⟩,
                decode_count := st.decode_count + 1,
                next_window_id := st.next_window_id }
          | none =>
              let window := create_winit_window st.next_window_id
              { render_state := .Active
                  ⟨window, fitTransform window.width window.height iw ih,
                    none, false⟩,
                decode_count := st.decode_count + 1,
                next_window_id := st.next_window_id + 1 }
      | .Active _ => st
  | .Suspended =>
      match st.render_state with
      | .Active s => { st with render_state := .Suspended (some s.window) }
      | .Suspended _ => st
  | .Window window_id ev =>
      match st.render_state with
      | .Active s =>
          if s.window.id = window_id then
            { st with render_state := .Active (handleWindowEvent powf s ev).state }
          else st
      | .Suspended _ => st

/-- Folding a list of top-level events through the application step. -/
def runApp (powf : ℚ → ℚ → ℚ) (iw ih : ℚ) (st : AppState)
    (evs : List Event) : AppState :=
  evs.foldl (stepApp powf iw ih) st

/-- The current view transform, when active. -/
def AppState.transformOf (st : AppState) : Option Affine :=
  match st.render_state with
  | .Active s => some s.transform
  | .Suspended _ => none

/-- A concrete stand-in for `f64::powf` usable in closed witnesses and
counterexamples (any positive-valued function fits the claims' hypotheses). -/
def powfTwo : ℚ → ℚ → ℚ := fun _ _ => 2

/-- `f64::powf` restricted to integer exponents, where its idealized
real-number semantics is exact over `ℚ`: `powfInt b e = b ^ ⌊e⌋`. A wheel
`LineDelta` with integral line count `y` produces exactly this value, e.g.
one scroll line gives the factor `1.05` exactly. -/
def powfInt (b e : ℚ) : ℚ := b ^ ⌊e⌋

end Veh

namespace Veh

/-! ### Transform algebra lemmas -/

theorem Affine.mul_def (s o : Affine) : s * o = s.mul o := rfl

theorem Vec2.sub_def (u v : Vec2) : u - v = ⟨u.x - v.x, u.y - v.y⟩ := rfl

theorem Vec2.neg_def (v : Vec2) : -v = ⟨-v.x, -v.y⟩ := rfl

/-- Application distributes over composition: `other` is applied first. -/
theorem Affine.apply_mul (s o : Affine) (p : Vec2) :
    (s * o).apply p = s.apply (o.apply p) := by
  obtain ⟨a0, a1, a2, a3, a4, a5⟩ := s
  obtain ⟨b0, b1, b2, b3, b4, b5⟩ := o
  simp only [Affine.mul_def, Affine.mul, Affine.apply, Vec2.mk.injEq]
  constructor <;> ring

/-- The determinant is multiplicative. -/
theorem Affine.det_mul (s o : Affine) : (s * o).det = s.det * o.det := by
  obtain ⟨a0, a1, a2, a3, a4, a5⟩ := s
  obtain ⟨b0, b1, b2, b3, b4, b5⟩ := o
  simp only [Affine.mul_def, Affine.mul, Affine.det]
  ring

theorem Affine.det_translate (v : Vec2) : (Affine.translate v).det = 1 := by
  simp [Affine.translate, Affine.det]

theorem Affine.det_scale (s : ℚ) : (Affine.scale s).det = s * s := by
  simp [Affine.scale, Affine.det]

theorem Affine.det_IDENTITY : Affine.IDENTITY.det = 1 := by
  simp [Affine.IDENTITY, Affine.det]

/-- The fit-to-window transform has determinant `min(w/iw, h/ih)^2`. -/
theorem fitTransform_det (w h iw ih : ℚ) :
    (fitTransform w h iw ih).det = min (w / iw) (h / ih) * min (w / iw) (h / ih) := by
  simp [fitTransform, Affine.det_mul, Affine.det_translate, Affine.det_scale,
    Affine.det_IDENTITY]

/-- Every event-handler step multiplies the determinant by `1` or by a square
of a `powf` value, so a positive determinant stays positive when `powf` is
positive on the base `1.05`. -/
theorem handle_det_pos (powf : ℚ → ℚ → ℚ) (hp : ∀ e, 0 < powf BASE e)
    (s : ActiveRenderState) (e : WindowEvent)
    (hd : 0 < s.transform.det) :
    0 < ((handleWindowEvent powf s e).state).transform.det := by
  cases e with
  | MouseInput st btn => cases btn <;> simpa [handleWindowEvent] using hd
  | MouseWheel d =>
      cases hq : s.prior_position with
      | none => simpa [handleWindowEvent, hq] using hd
      | some pv =>
          have hf := hp (scrollExponent d)
          simp only [handleWindowEvent, hq, Affine.det_mul, Affine.det_translate,
            Affine.det_scale]
          have := mul_pos (mul_pos hf hf) hd
          nlinarith [this]
  | CursorLeft => simpa [handleWindowEvent] using hd
  | CursorMoved p =>
      cases hb : s.mouse_down with
      | false => simpa [handleWindowEvent, hb] using hd
      | true =>
          cases hq : s.prior_position with
          | none => simpa [handleWindowEvent, hb, hq] using hd
          | some prior =>
              simp only [handleWindowEvent, hb, hq, Affine.det_mul,
                Affine.det_translate]
              linarith
  | KeyboardInput st k =>
      cases st with
      | Released => simpa [handleWindowEvent] using hd
      | Pressed =>
          cases k <;>
            simp only [handleWindowEvent, Affine.det_mul, Affine.det_translate] <;>
            simpa using hd
  | CloseRequested => simpa [handleWindowEvent] using hd
  | Resized => simpa [handleWindowEvent] using hd
  | RedrawRequested => simpa [handleWindowEvent] using hd

/-- Positivity of the determinant is preserved by any event sequence. -/
theorem runActive_det_pos (powf : ℚ → ℚ → ℚ) (hp : ∀ e, 0 < powf BASE e)
    (evs : List WindowEvent) (s : ActiveRenderState)
    (hd : 0 < s.transform.det) :
    0 < (runActive powf s evs).transform.det := by
  induction evs generalizing s with
  | nil => simpa [runActive]
  | cons e rest ih =>
      have := handle_det_pos powf hp s e hd
      simpa [runActive, List.foldl] using ih _ this

end Veh

namespace Veh

/-! ### Claim theorems -/

/-- Claim C1: a pointer-move event at `p` with the primary button down and a
defined prior position `p0` replaces the transform by
`translate(p - p0) * T` (composition on the left) and requests a redraw;
the prior position is then set to `p` unconditionally, whatever the button
and prior-position state; with `T` the identity and drag delta `(5, -3)`,
the resulting transform maps `(0, 0)` to `(5, -3)`. -/
theorem C1_drag_composes_left (powf : ℚ → ℚ → ℚ) (w : WindowHandle)
    (T : Affine) (p0 p : Vec2) :
    handleWindowEvent powf ⟨w, T, some p0, true⟩ (.CursorMoved p)
      = ⟨⟨w, Affine.translate (p - p0) * T, some p, true⟩, true, false⟩
    ∧ (∀ (q : Option Vec2) (b : Bool),
        ((handleWindowEvent powf ⟨w, T, q, b⟩ (.CursorMoved p)).state).prior_position
          = some p)
    ∧ (handleWindowEvent powf ⟨w, Affine.IDENTITY, some ⟨0, 0⟩, true⟩
          (.CursorMoved ⟨5, -3⟩)).state.transform.apply ⟨0, 0⟩ = ⟨5, -3⟩ := by
  refine ⟨rfl, ?_, ?_⟩
  · intro q b
    cases b <;> cases q <;> rfl
  · norm_num [handleWindowEvent, Affine.apply, Affine.mul_def, Affine.mul,
      Affine.translate, Affine.IDENTITY, Vec2.sub_def]

/-- Claim C2: a wheel event with a defined prior position `pv` updates the
transform to `translate(pv) * scale(1.05 ^ e) * translate(-pv) * T` — the
zoom pivoted on the last known pointer position — and requests a redraw,
where the exponent `e` is `dy / 20` for pixel deltas and the raw line count
`dy` for line deltas, and the base is `1.05`. -/
theorem C2_wheel_zoom_formula (powf : ℚ → ℚ → ℚ) (w : WindowHandle)
    (T : Affine) (pv : Vec2) (b : Bool) (d : MouseScrollDelta) (x y : ℚ) :
    handleWindowEvent powf ⟨w, T, some pv, b⟩ (.MouseWheel d)
      = ⟨⟨w, Affine.translate pv * Affine.scale (powf BASE (scrollExponent d))
              * Affine.translate (-pv) * T, some pv, b⟩, true, false⟩
    ∧ scrollExponent (.PixelDelta x y) = y / 20
    ∧ scrollExponent (.LineDelta x y) = y
    ∧ BASE = 1.05 := by
  refine ⟨rfl, ?_, rfl, rfl⟩
  norm_num [scrollExponent, PIXELS_PER_LINE]

/-- Claim C4: a wheel event with no prior pointer position is a silent no-op
(state unchanged, no redraw, no exit); a pointer-leave event only clears the
prior position (no transform change, no redraw); hence a wheel event right
after a leave is such a no-op, and in particular requests no redraw. -/
theorem C4_wheel_without_pivot_noop (powf : ℚ → ℚ → ℚ) (w : WindowHandle)
    (T : Affine) (q : Option Vec2) (b : Bool) (d : MouseScrollDelta) :
    handleWindowEvent powf ⟨w, T, none, b⟩ (.MouseWheel d)
      = ⟨⟨w, T, none, b⟩, false, false⟩
    ∧ handleWindowEvent powf ⟨w, T, q, b⟩ .CursorLeft
      = ⟨⟨w, T, none, b⟩, false, false⟩
    ∧ runActive powf ⟨w, T, q, b⟩ [.CursorLeft, .MouseWheel d] = ⟨w, T, none, b⟩
    ∧ (handleWindowEvent powf
        (handleWindowEvent powf ⟨w, T, q, b⟩ .CursorLeft).state
        (.MouseWheel d)).redraw = false :=
  ⟨rfl, rfl, rfl, rfl⟩

/-- Claim C5: each arrow-key or vim-style direction key press applies a fixed
10-unit pan composed on the right, `T * translate(±10, 0)` or
`T * translate(0, ±10)`, and requests a redraw; four consecutive nudges in
the four directions return the transform (and the whole state) to its
starting value. -/
theorem C5_key_nudges (powf : ℚ → ℚ → ℚ) (w : WindowHandle) (T : Affine)
    (q : Option Vec2) (b : Bool) :
    handleWindowEvent powf ⟨w, T, q, b⟩ (.KeyboardInput .Pressed .ArrowUp)
      = ⟨⟨w, T * Affine.translate ⟨0, -10⟩, q, b⟩, true, false⟩
    ∧ handleWindowEvent powf ⟨w, T, q, b⟩ (.KeyboardInput .Pressed .KeyK)
      = ⟨⟨w, T * Affine.translate ⟨0, -10⟩, q, b⟩, true, false⟩
    ∧ handleWindowEvent powf ⟨w, T, q, b⟩ (.KeyboardInput .Pressed .ArrowDown)
      = ⟨⟨w, T * Affine.translate ⟨0, 10⟩, q, b⟩, true, false⟩
    ∧ handleWindowEvent powf ⟨w, T, q, b⟩ (.KeyboardInput .Pressed .KeyJ)
      = ⟨⟨w, T * Affine.translate ⟨0, 10⟩, q, b⟩, true, false⟩
    ∧ handleWindowEvent powf ⟨w, T, q, b⟩ (.KeyboardInput .Pressed .ArrowLeft)
      = ⟨⟨w, T * Affine.translate ⟨-10, 0⟩, q, b⟩, true, false⟩
    ∧ handleWindowEvent powf ⟨w, T, q, b⟩ (.KeyboardInput .Pressed .KeyH)
      = ⟨⟨w, T * Affine.translate ⟨-10, 0⟩, q, b⟩, true, false⟩
    ∧ handleWindowEvent powf ⟨w, T, q, b⟩ (.KeyboardInput .Pressed .ArrowRight)
      = ⟨⟨w, T * Affine.translate ⟨10, 0⟩, q, b⟩, true, false⟩
    ∧ handleWindowEvent powf ⟨w, T, q, b⟩ (.KeyboardInput .Pressed .KeyL)
      = ⟨⟨w, T * Affine.translate ⟨10, 0⟩, q, b⟩, true, false⟩
    ∧ runActive powf ⟨w, T, q, b⟩
        [.KeyboardInput .Pressed .ArrowUp, .KeyboardInput .Pressed .ArrowDown,
         .KeyboardInput .Pressed .ArrowLeft, .KeyboardInput .Pressed .ArrowRight]
        = ⟨w, T, q, b⟩ := by
  refine ⟨rfl, rfl, rfl, rfl, rfl, rfl, rfl, rfl, ?_⟩
  obtain ⟨a0, a1, a2, a3, a4, a5⟩ := T
  simp only [runActive, List.foldl, handleWindowEvent, Affine.mul_def,
    Affine.mul, Affine.translate, ActiveRenderState.mk.injEq, Affine.mk.injEq]
  norm_num

/-- Claim C10: a pointer-move event with the button down but no prior
position leaves the transform untouched; the only state change is that the
prior position becomes the event position, and a redraw is requested. -/
theorem C10_first_drag_move_no_jump (powf : ℚ → ℚ → ℚ) (w : WindowHandle)
    (T : Affine) (p : Vec2) :
    handleWindowEvent powf ⟨w, T, none, true⟩ (.CursorMoved p)
      = ⟨⟨w, T, some p, true⟩, true, false⟩ := rfl

end Veh

namespace Veh

/-- Claim C3 counterexample: the claimed identity `T'(p) = T(p)` fails at the
concrete input `T = translate(1, 0)`, pivot `p = (0, 0)`, positive factor
`1.05` (one scroll line): the wheel update maps `(0, 0)` to `(1.05, 0)`
while `T` maps it to `(1, 0)`. -/
theorem C3_pivot_invariance_counterexample :
    (0 : ℚ) < powfInt BASE (scrollExponent (.LineDelta 0 1))
    ∧ (handleWindowEvent powfInt
        ⟨⟨0, 1044, 800⟩, Affine.translate ⟨1, 0⟩, some ⟨0, 0⟩, false⟩
        (.MouseWheel (.LineDelta 0 1))).state.transform.apply ⟨0, 0⟩
      ≠ (Affine.translate ⟨1, 0⟩).apply ⟨0, 0⟩ := by
  constructor
  · norm_num [powfInt, BASE, scrollExponent]
  · norm_num [handleWindowEvent, powfInt, BASE, scrollExponent, Affine.apply,
      Affine.mul_def, Affine.mul, Affine.translate, Affine.scale, Vec2.neg_def]

/-- Claim C3 (amended): the wheel update `translate(pv) ∘ scale(f) ∘
translate(-pv) ∘ T` holds the pivot fixed as a point of the transform's
codomain (window space): any point `x` whose image under `T` is the pivot
`pv` keeps the same image under the updated transform. The pivot itself is
generally moved unless `T(pv) = pv` or `f = 1`. -/
theorem C3_zoom_fixes_pivot_preimage (powf : ℚ → ℚ → ℚ) (w : WindowHandle)
    (T : Affine) (pv x : Vec2) (b : Bool) (d : MouseScrollDelta)
    (hx : T.apply x = pv) :
    (handleWindowEvent powf ⟨w, T, some pv, b⟩
        (.MouseWheel d)).state.transform.apply x = T.apply x := by
  have hT : (handleWindowEvent powf ⟨w, T, some pv, b⟩
        (.MouseWheel d)).state.transform
      = Affine.translate pv * Affine.scale (powf BASE (scrollExponent d))
          * Affine.translate (-pv) * T := rfl
  rw [hT, Affine.apply_mul, hx]
  obtain ⟨px, py⟩ := pv
  simp only [Affine.apply, Affine.mul_def, Affine.mul, Affine.translate,
    Affine.scale, Vec2.neg_def, Vec2.mk.injEq]
  constructor <;> ring

/-- Witness for the amended C3 at a concrete input. -/
theorem C3_zoom_fixes_pivot_preimage_witness :
    (handleWindowEvent powfInt
        ⟨⟨0, 1044, 800⟩, Affine.IDENTITY, some ⟨3, 4⟩, false⟩
        (.MouseWheel (.LineDelta 0 1))).state.transform.apply ⟨3, 4⟩
      = Affine.IDENTITY.apply ⟨3, 4⟩ :=
  C3_zoom_fixes_pivot_preimage powfInt ⟨0, 1044, 800⟩ Affine.IDENTITY
    ⟨3, 4⟩ ⟨3, 4⟩ false (.LineDelta 0 1)
    (by norm_num [Affine.apply, Affine.IDENTITY])

/-- Claim C6: the first resume from `Suspended(none)` decodes the image and
installs the fit-to-window transform for the fresh 1044×800 window; for any
sizes that transform is the uniform scale `min(w/dw, h/dh)` (zero shear) and
maps the document center to the window center; concretely for a 200×100
document in a 1044×800 window the scale is `5.22` and `(100, 50)` maps to
`(522, 400)`. -/
theorem C6_fit_to_window_initial_transform (powf : ℚ → ℚ → ℚ) (iw ih : ℚ)
    (n k : ℕ) :
    stepApp powf iw ih ⟨.Suspended none, n, k⟩ .Resumed
      = ⟨.Active ⟨⟨k, 1044, 800⟩, fitTransform 1044 800 iw ih, none, false⟩,
          n + 1, k + 1⟩
    ∧ (∀ w h dw dh : ℚ,
        (fitTransform w h dw dh).a0 = min (w / dw) (h / dh)
        ∧ (fitTransform w h dw dh).a1 = 0
        ∧ (fitTransform w h dw dh).a2 = 0
        ∧ (fitTransform w h dw dh).a3 = min (w / dw) (h / dh)
        ∧ (fitTransform w h dw dh).apply ⟨dw / 2, dh / 2⟩ = ⟨w / 2, h / 2⟩)
    ∧ min ((1044 : ℚ) / 200) (800 / 100) = 5.22
    ∧ (fitTransform 1044 800 200 100).apply ⟨100, 50⟩ = ⟨522, 400⟩ := by
  refine ⟨rfl, ?_, by norm_num [min_def], ?_⟩
  · intro w h dw dh
    simp only [fitTransform, Affine.mul_def, Affine.mul, Affine.translate,
      Affine.scale, Affine.IDENTITY, Affine.apply, Vec2.neg_def, Vec2.mk.injEq]
    refine ⟨by ring, by ring, by ring, by ring, by constructor <;> ring⟩
  · norm_num [fitTransform, Affine.apply, Affine.mul_def, Affine.mul,
      Affine.translate, Affine.scale, Affine.IDENTITY, Vec2.neg_def, min_def]

/-- Claim C7 counterexample: running the loop from the initial state through
a first resume, a drag (pivot move, press, drag move), a suspend and a second
resume decodes the document twice (`open_image` runs once per resume, not
once per process) and replaces the user's dragged transform by a fresh
fit-to-window transform. -/
theorem C7_decode_once_counterexample :
    (runApp powfTwo 200 100 ⟨.Suspended none, 0, 0⟩
        [.Resumed, .Window 0 (.CursorMoved ⟨0, 0⟩),
         .Window 0 (.MouseInput .Pressed .Left),
         .Window 0 (.CursorMoved ⟨5, 0⟩), .Suspended, .Resumed]).decode_count = 2
    ∧ (runApp powfTwo 200 100 ⟨.Suspended none, 0, 0⟩
        [.Resumed, .Window 0 (.CursorMoved ⟨0, 0⟩),
         .Window 0 (.MouseInput .Pressed .Left),
         .Window 0 (.CursorMoved ⟨5, 0⟩), .Suspended, .Resumed]).transformOf
      ≠ (runApp powfTwo 200 100 ⟨.Suspended none, 0, 0⟩
        [.Resumed, .Window 0 (.CursorMoved ⟨0, 0⟩),
         .Window 0 (.MouseInput .Pressed .Left),
         .Window 0 (.CursorMoved ⟨5, 0⟩)]).transformOf := by
  constructor <;>
    norm_num [runApp, stepApp, handleWindowEvent, create_winit_window,
      fitTransform, AppState.transformOf, Affine.apply, Affine.mul_def,
      Affine.mul, Affine.translate, Affine.scale, Affine.IDENTITY,
      Vec2.neg_def, Vec2.sub_def, min_def, List.foldl]

/-- Claim C7 (amended): `open_image` decodes the document on every resume
from `Suspended` (once per resume, not once per process), and each resume
resets the `ViewTransform` to the fit-to-window transform of the window's
current size, discarding accumulated pan/zoom; the suspend event itself
retains only the window handle and drops the rest of the active state. -/
theorem C7_amended_decode_per_resume (powf : ℚ → ℚ → ℚ) (iw ih : ℚ) :
    (∀ (w : WindowHandle) (n k : ℕ),
        stepApp powf iw ih ⟨.Suspended (some w), n, k⟩ .Resumed
          = ⟨.Active ⟨w, fitTransform w.width w.height iw ih, none, false⟩,
              n + 1, k⟩)
    ∧ (∀ n k : ℕ,
        stepApp powf iw ih ⟨.Suspended none, n, k⟩ .Resumed
          = ⟨.Active ⟨⟨k, 1044, 800⟩, fitTransform 1044 800 iw ih, none, false⟩,
              n + 1, k + 1⟩)
    ∧ (∀ (s : ActiveRenderState) (n k : ℕ),
        stepApp powf iw ih ⟨.Active s, n, k⟩ .Suspended
          = ⟨.Suspended (some s.window), n, k⟩) :=
  ⟨fun _ _ _ => rfl, fun _ _ => rfl, fun _ _ _ => rfl⟩

/-- Claim C8 counterexample: a pointer-move event with the button up and no
prior position mutates only `InteractionState` (the transform is untouched),
yet it does request a redraw — the `CursorMoved` arm calls
`request_redraw()` unconditionally. -/
theorem C8_redraw_discipline_counterexample :
    (handleWindowEvent powfTwo ⟨⟨0, 1044, 800⟩, Affine.IDENTITY, none, false⟩
        (.CursorMoved ⟨3, 4⟩)).state.transform = Affine.IDENTITY
    ∧ (handleWindowEvent powfTwo ⟨⟨0, 1044, 800⟩, Affine.IDENTITY, none, false⟩
        (.CursorMoved ⟨3, 4⟩)).state.prior_position = some ⟨3, 4⟩
    ∧ (handleWindowEvent powfTwo ⟨⟨0, 1044, 800⟩, Affine.IDENTITY, none, false⟩
        (.CursorMoved ⟨3, 4⟩)).redraw = true :=
  ⟨rfl, rfl, rfl⟩

/-- Claim C8 (amended): every transform-mutating branch (wheel zoom with a
defined pivot, key nudge; drag moves are covered since every pointer move
redraws) requests a redraw; button press/release, pointer leave and a wheel
event without pivot do not; but a pointer-move event requests a redraw
unconditionally, even when no drag applies and only `InteractionState`
changes. -/
theorem C8_amended_redraw_discipline (powf : ℚ → ℚ → ℚ) (w : WindowHandle)
    (T : Affine) (q : Option Vec2) (b : Bool) :
    (∀ (s : ElementState) (btn : MouseButton),
        (handleWindowEvent powf ⟨w, T, q, b⟩ (.MouseInput s btn)).redraw = false
        ∧ (handleWindowEvent powf ⟨w, T, q, b⟩ (.MouseInput s btn)).state.transform = T)
    ∧ ((handleWindowEvent powf ⟨w, T, q, b⟩ .CursorLeft).redraw = false
        ∧ (handleWindowEvent powf ⟨w, T, q, b⟩ .CursorLeft).state.transform = T)
    ∧ (∀ (pv : Vec2) (d : MouseScrollDelta),
        (handleWindowEvent powf ⟨w, T, some pv, b⟩ (.MouseWheel d)).redraw = true)
    ∧ (∀ d : MouseScrollDelta,
        (handleWindowEvent powf ⟨w, T, none, b⟩ (.MouseWheel d)).redraw = false
        ∧ (handleWindowEvent powf ⟨w, T, none, b⟩ (.MouseWheel d)).state.transform = T)
    ∧ (∀ p : Vec2,
        (handleWindowEvent powf ⟨w, T, q, b⟩ (.CursorMoved p)).redraw = true)
    ∧ (handleWindowEvent powf ⟨w, T, q, b⟩ (.KeyboardInput .Pressed .ArrowUp)).redraw = true
    ∧ (handleWindowEvent powf ⟨w, T, q, b⟩ (.KeyboardInput .Pressed .ArrowDown)).redraw = true
    ∧ (handleWindowEvent powf ⟨w, T, q, b⟩ (.KeyboardInput .Pressed .ArrowLeft)).redraw = true
    ∧ (handleWindowEvent powf ⟨w, T, q, b⟩ (.KeyboardInput .Pressed .ArrowRight)).redraw = true
    ∧ (handleWindowEvent powf ⟨w, T, q, b⟩ (.KeyboardInput .Pressed .KeyH)).redraw = true
    ∧ (handleWindowEvent powf ⟨w, T, q, b⟩ (.KeyboardInput .Pressed .KeyJ)).redraw = true
    ∧ (handleWindowEvent powf ⟨w, T, q, b⟩ (.KeyboardInput .Pressed .KeyK)).redraw = true
    ∧ (handleWindowEvent powf ⟨w, T, q, b⟩ (.KeyboardInput .Pressed .KeyL)).redraw = true := by
  refine ⟨?_, ⟨rfl, rfl⟩, fun pv d => rfl, fun d => ⟨rfl, rfl⟩, fun p => rfl,
    rfl, rfl, rfl, rfl, rfl, rfl, rfl, rfl⟩
  intro s btn
  cases btn <;> exact ⟨rfl, rfl⟩

/-- Claim C9: starting from the fit-to-window transform of positive window
and document dimensions, the transform stays invertible (indeed of positive
determinant) after any sequence of window events, provided `powf 1.05 e` is
positive for every exponent — the transform is only ever composed with
translations and positive uniform scales. -/
theorem C9_transform_always_invertible (powf : ℚ → ℚ → ℚ)
    (hp : ∀ e, 0 < powf BASE e) (w h iw ih : ℚ)
    (hw : 0 < w) (hh : 0 < h) (hiw : 0 < iw) (hih : 0 < ih)
    (win : WindowHandle) (evs : List WindowEvent) :
    0 < (runActive powf ⟨win, fitTransform w h iw ih, none, false⟩ evs).transform.det
    ∧ (runActive powf ⟨win, fitTransform w h iw ih, none, false⟩ evs).transform.invertible := by
  have h0 : 0 < (fitTransform w h iw ih).det := by
    rw [fitTransform_det]
    have hm : 0 < min (w / iw) (h / ih) :=
      lt_min (div_pos hw hiw) (div_pos hh hih)
    exact mul_pos hm hm
  have hpos := runActive_det_pos powf hp evs
    ⟨win, fitTransform w h iw ih, none, false⟩ h0
  exact ⟨hpos, ne_of_gt hpos⟩

/-- Witness for C9 at a concrete input: the 200×100 document in the default
1044×800 window, after a pointer move, a wheel zoom and a key nudge. -/
theorem C9_transform_always_invertible_witness :
    0 < (runActive powfTwo
          ⟨⟨0, 1044, 800⟩, fitTransform 1044 800 200 100, none, false⟩
          [.CursorMoved ⟨1, 2⟩, .MouseWheel (.LineDelta 0 1),
           .KeyboardInput .Pressed .ArrowUp]).transform.det
    ∧ (runActive powfTwo
          ⟨⟨0, 1044, 800⟩, fitTransform 1044 800 200 100, none, false⟩
          [.CursorMoved ⟨1, 2⟩, .MouseWheel (.LineDelta 0 1),
           .KeyboardInput .Pressed .ArrowUp]).transform.invertible :=
  C9_transform_always_invertible powfTwo (fun e => by norm_num [powfTwo])
    1044 800 200 100 (by norm_num) (by norm_num) (by norm_num) (by norm_num)
    ⟨0, 1044, 800⟩
    [.CursorMoved ⟨1, 2⟩, .MouseWheel (.LineDelta 0 1),
     .KeyboardInput .Pressed .ArrowUp]

end Veh
